import Mathlib

/-
Verification development for the ExecutorBalancer distribution engine
(src/distribution.py together with the external intake/completion calls of
src/main.py).  Python strings are modelled as Lean `String`/`List Char`,
Python dicts of string parameters as association lists, the SQL store as an
in-memory `Store` structure whose lists carry the row iteration order, and
Python float arithmetic on the reachable numeric strings as exact `Rat`
arithmetic.  Timestamps (`datetime.utcnow`) are abstracted as a `Nat`
parameter `now`.
-/

namespace ExecutorBalancer

/-- Semantic type tags of the classifier `detect_data_type`
(src/distribution.py, lines 12-46). -/
inductive DataType where
  | date
  | integer
  | float
  | text
  | string
  | raster
  | unknown
deriving DecidableEq, Repr

/-- Whitespace as stripped by Python `str.strip()` (ASCII part). -/
def pyIsSpace (c : Char) : Bool :=
  c == ' ' || c == '\t' || c == '\n' || c == '\x0d' || c == '\x0b' || c == '\x0c'

/-- Python `str.strip()`: drop whitespace from both ends. -/
def stripChars (cs : List Char) : List Char :=
  ((cs.dropWhile pyIsSpace).reverse.dropWhile pyIsSpace).reverse

/-- Python `str.lower()` restricted to the character classes the classifier
distinguishes: ASCII letters and the Cyrillic letters of the text class. -/
def pyToLower (c : Char) : Char :=
  if 'A' ≤ c && c ≤ 'Z' then Char.ofNat (c.toNat + 32)
  else if 0x410 ≤ c.toNat && c.toNat ≤ 0x42F then Char.ofNat (c.toNat + 32)
  else if c.toNat == 0x401 then Char.ofNat 0x451
  else c

/-- Lowercased character list of a string (`value.lower()`). -/
def lowerStr (s : String) : List Char :=
  s.data.map pyToLower

/-- Regex `^\d{4}-\d{2}-\d{2}$` (YYYY-MM-DD), on the stripped value. -/
def isDateYMDdash : List Char → Bool
  | [a, b, c, d, s1, e, f, s2, g, h] =>
      a.isDigit && b.isDigit && c.isDigit && d.isDigit && s1 == '-' &&
      e.isDigit && f.isDigit && s2 == '-' && g.isDigit && h.isDigit
  | _ => false

/-- Regex `^\d{2}\.\d{2}\.\d{4}$` (DD.MM.YYYY). -/
def isDateDMYdot : List Char → Bool
  | [a, b, s1, c, d, s2, e, f, g, h] =>
      a.isDigit && b.isDigit && s1 == '.' && c.isDigit && d.isDigit &&
      s2 == '.' && e.isDigit && f.isDigit && g.isDigit && h.isDigit
  | _ => false

/-- Regex `^\d{2}/\d{2}/\d{4}$` (DD/MM/YYYY). -/
def isDateDMYslash : List Char → Bool
  | [a, b, s1, c, d, s2, e, f, g, h] =>
      a.isDigit && b.isDigit && s1 == '/' && c.isDigit && d.isDigit &&
      s2 == '/' && e.isDigit && f.isDigit && g.isDigit && h.isDigit
  | _ => false

/-- Regex `^\d{4}\.\d{2}\.\d{2}$` (YYYY.MM.DD). -/
def isDateYMDdot : List Char → Bool
  | [a, b, c, d, s1, e, f, s2, g, h] =>
      a.isDigit && b.isDigit && c.isDigit && d.isDigit && s1 == '.' &&
      e.isDigit && f.isDigit && s2 == '.' && g.isDigit && h.isDigit
  | _ => false

/-- One of the four anchored date patterns matches. -/
def matchesDatePattern (cs : List Char) : Bool :=
  isDateYMDdash cs || isDateDMYdot cs || isDateDMYslash cs || isDateYMDdot cs

/-- A nonempty run of decimal digits. -/
def isDigitRun (cs : List Char) : Bool :=
  !cs.isEmpty && cs.all Char.isDigit

/-- Regex `^-?\d+$`. -/
def isIntegerShape : List Char → Bool
  | '-' :: rest => isDigitRun rest
  | cs => isDigitRun cs

/-- Regex `^\d+\.\d+$`. -/
def isUnsignedFloatShape (cs : List Char) : Bool :=
  match cs.span Char.isDigit with
  | (ip, '.' :: fp) => !ip.isEmpty && isDigitRun fp
  | _ => false

/-- Regex `^-?\d+\.\d+$`. -/
def isFloatShape : List Char → Bool
  | '-' :: rest => isUnsignedFloatShape rest
  | cs => isUnsignedFloatShape cs

/-- The image extension list of `detect_data_type`. -/
def image_extensions : List (List Char) :=
  [".jpg".data, ".jpeg".data, ".png".data, ".gif".data, ".bmp".data,
   ".tiff".data, ".tif".data, ".webp".data, ".svg".data]

/-- `any(value.lower().endswith(ext) for ext in image_extensions)`. -/
def endsWithImageExt (cs : List Char) : Bool :=
  image_extensions.any (fun ext => ext.isSuffixOf (cs.map pyToLower))

/-- Character class `[а-яёА-ЯЁa-zA-Z\s]` of the text pattern. -/
def isTextChar (c : Char) : Bool :=
  ('a' ≤ c && c ≤ 'z') || ('A' ≤ c && c ≤ 'Z') ||
  (0x430 ≤ c.toNat && c.toNat ≤ 0x44F) || (0x410 ≤ c.toNat && c.toNat ≤ 0x42F) ||
  c.toNat == 0x451 || c.toNat == 0x401 || pyIsSpace c

/-- `detect_data_type` (src/distribution.py, lines 12-46): classify a raw
string value into one of the seven type tags, checking the patterns in the
source's priority order on the stripped value. -/
def detect_data_type (value : String) : DataType :=
  if value.data.isEmpty then DataType.unknown
  else
    let v := stripChars value.data
    if matchesDatePattern v then DataType.date
    else if isIntegerShape v then DataType.integer
    else if isFloatShape v then DataType.float
    else if endsWithImageExt v then DataType.raster
    else if !v.isEmpty && v.all isTextChar then DataType.text
    else if !v.isEmpty then DataType.string
    else DataType.unknown

/-- Value of a nonempty digit run, most significant digit first. -/
def digitsToNat (cs : List Char) : Nat :=
  cs.foldl (fun acc c => acc * 10 + (c.toNat - 48)) 0

/-- Python `int(s)` on an integer-shaped string (it strips whitespace
itself). -/
def pyInt (s : String) : Int :=
  match stripChars s.data with
  | '-' :: rest => - (digitsToNat rest : Int)
  | cs => (digitsToNat cs : Int)

/-- Value of an unsigned decimal literal `d+` or `d+.d+`. -/
def posRatOfChars (cs : List Char) : Rat :=
  match cs.span Char.isDigit with
  | (ip, '.' :: fp) => (digitsToNat ip : Rat) + (digitsToNat fp : Rat) / ((10 : Rat) ^ fp.length)
  | (ip, _) => (digitsToNat ip : Rat)

/-- Python `float(s)` on the integer- or float-shaped strings reachable in
the matcher, modelled as exact rational arithmetic. -/
def pyFloat (s : String) : Rat :=
  match stripChars s.data with
  | '-' :: rest => - posRatOfChars rest
  | cs => posRatOfChars cs

/-- Python `float(s)` wrapped in the matcher's `try/except ValueError`:
parsing succeeds exactly on the numeric shapes (which is the case whenever
the classifier tagged the string `integer` or `float`). -/
def pyFloatOpt (s : String) : Option Rat :=
  if isIntegerShape (stripChars s.data) || isFloatShape (stripChars s.data) then
    some (pyFloat s)
  else none

/-- `match_parameter_values` (src/distribution.py, lines 49-82): type-aware
comparison of an executor capability value and a request parameter value. -/
def match_parameter_values (executor_param request_param : String) : Bool :=
  if executor_param.data.isEmpty || request_param.data.isEmpty then false
  else
    let et := detect_data_type executor_param
    let rt := detect_data_type request_param
    if et ≠ rt then
      if (et = DataType.integer ∨ et = DataType.float) ∧
         (rt = DataType.integer ∨ rt = DataType.float) then
        match pyFloatOpt executor_param, pyFloatOpt request_param with
        | some x, some y => decide (|x - y| < (1 : Rat) / 1000)
        | _, _ => false
      else if (et = DataType.text ∨ et = DataType.string) ∧
              (rt = DataType.text ∨ rt = DataType.string) then
        decide (lowerStr executor_param = lowerStr request_param)
      else if et = DataType.raster ∧ rt = DataType.raster then
        decide (lowerStr executor_param = lowerStr request_param)
      else false
    else
      if et = DataType.integer then
        decide (pyInt executor_param = pyInt request_param)
      else if et = DataType.float then
        decide (|pyFloat executor_param - pyFloat request_param| < (1 : Rat) / 1000)
      else if et = DataType.date then
        decide (executor_param = request_param)
      else
        decide (lowerStr executor_param = lowerStr request_param)

/-- Item status (`Request.status` of src/models.py): pending, assigned or
completed. -/
inductive Status where
  | pending
  | assigned
  | completed
deriving DecidableEq, Repr

/-- A work item (`Request` of src/models.py).  The JSON `parameters` column
is read by the engine only through `req.parameters['parameters']` (a dict of
string parameter names to values, stringified before matching); the field
`parameters` below is that sub-map, `none` when the JSON value is falsy or
has no `parameters` key.  `assigned_at` is an abstract timestamp. -/
structure Request where
  id : Nat
  parameters : Option (List (String × String))
  status : Status
  assigned_to : Option Nat
  assigned_at : Option Nat
deriving DecidableEq, Repr

/-- A worker (`Executor` of src/models.py).  `parameters` is the capability
map (`executor.parameters or {}` — the falsy case collapses to `[]`). -/
structure Executor where
  id : Nat
  name : String
  parameters : List (String × String)
  total_assigned : Nat
  is_active : Bool
deriving DecidableEq, Repr

/-- The shared store: the two tables in row iteration order. -/
structure Store where
  requests : List Request
  executors : List Executor
deriving DecidableEq, Repr

/-- Python dict lookup `req_params[param_name]` on the modelled sub-map. -/
def lookupParam (m : List (String × String)) (k : String) : Option String :=
  (m.find? (fun p => p.1 == k)).map (fun p => p.2)

/-- The matching loop of `get_next_request` (src/distribution.py, lines
112-127): a request qualifies for an executor's capability map when its
sub-map exists and, for every declared capability parameter, holds a
correspondingly named value accepted by `match_parameter_values`. -/
def requestMatches (executor_params : List (String × String)) (req : Request) : Bool :=
  match req.parameters with
  | none => false
  | some req_params =>
      executor_params.all (fun p =>
        match lookupParam req_params p.1 with
        | some v => match_parameter_values p.2 v
        | none => false)

/-- `select(Executor).where(Executor.id == executor_id, Executor.is_active
== True)` (src/distribution.py, lines 93-96). -/
def find_executor (s : Store) (executor_id : Nat) : Option Executor :=
  s.executors.find? (fun e => e.id == executor_id && e.is_active)

/-- `select(Request).where(Request.status == "pending")` in row order. -/
def pendingRequests (s : Store) : List Request :=
  s.requests.filter (fun r => decide (r.status = Status.pending))

/-- The request selection of `get_next_request` (src/distribution.py, lines
101-138): when the executor declares capability parameters, the first
qualifying pending request; otherwise — and also when none qualifies — the
first pending request with no filtering. -/
def selectRequest (s : Store) (e : Executor) : Option Request :=
  let fromMatching :=
    if !e.parameters.isEmpty then
      ((pendingRequests s).filter (requestMatches e.parameters)).head?
    else none
  match fromMatching with
  | some r => some r
  | none => (pendingRequests s).head?

/-- The assignment mutation (src/distribution.py, lines 140-143). -/
def assignRequest (r : Request) (executor_id now : Nat) : Request :=
  { r with status := Status.assigned, assigned_to := some executor_id,
           assigned_at := some now }

/-- `executor.total_assigned += 1` (src/distribution.py, line 145). -/
def bumpExecutor (e : Executor) : Executor :=
  { e with total_assigned := e.total_assigned + 1 }

/-- Commit of an assignment: the mutated request row and the incremented
executor row are written back (by primary key). -/
def commitAssignment (s : Store) (r : Request) (executor_id now : Nat) : Store :=
  { requests := s.requests.map (fun q =>
      if q.id == r.id then assignRequest q executor_id now else q),
    executors := s.executors.map (fun w =>
      if w.id == executor_id then bumpExecutor w else w) }

/-- `DistributionEngine.get_next_request` (src/distribution.py, lines
87-150): the capability-aware pull of the next request for an executor,
returning the assigned request (if any) and the updated store. -/
def get_next_request (s : Store) (executor_id now : Nat) : Option Request × Store :=
  match find_executor s executor_id with
  | none => (none, s)
  | some e =>
      match selectRequest s e with
      | none => (none, s)
      | some r => (some (assignRequest r executor_id now),
                   commitAssignment s r executor_id now)

/-- `order_by(Executor.total_assigned.asc()).limit(1)`: the first executor
with minimal `total_assigned` (ties broken by row order, which the SQL
leaves arbitrary). -/
def pickMinExecutor : List Executor → Option Executor
  | [] => none
  | e :: rest =>
      match pickMinExecutor rest with
      | none => some e
      | some b => if b.total_assigned < e.total_assigned then some b else some e

/-- `DistributionEngine.get_optimal_executor` (src/distribution.py, lines
152-162): the active executor with the fewest assignments. -/
def get_optimal_executor (s : Store) : Option Executor :=
  pickMinExecutor (s.executors.filter (fun e => e.is_active))

/-- `select(Request).where(Request.id == request_id)`. -/
def find_request (s : Store) (request_id : Nat) : Option Request :=
  s.requests.find? (fun r => r.id == request_id)

/-- `DistributionEngine.auto_distribute_batch` (src/distribution.py, lines
164-193): walk the ids in order, skip missing or non-pending requests,
assign each remaining one to the least-loaded active executor, stop early
when no active executor exists, and return the number assigned. -/
def auto_distribute_batch (s : Store) (request_ids : List Nat) (now : Nat) : Store × Nat :=
  match request_ids with
  | [] => (s, 0)
  | request_id :: rest =>
      match find_request s request_id with
      | none => auto_distribute_batch s rest now
      | some r =>
          if r.status ≠ Status.pending then auto_distribute_batch s rest now
          else
            match get_optimal_executor s with
            | none => (s, 0)
            | some e =>
                let p := auto_distribute_batch (commitAssignment s r e.id now) rest now
                (p.1, p.2 + 1)

/-- `select(func.count(Request.id)).where(Request.status == st)`. -/
def countStatus (s : Store) (st : Status) : Nat :=
  s.requests.countP (fun r => decide (r.status = st))

/-- The live recount of `get_distribution_stats` (src/distribution.py,
lines 224-229): requests bound to the executor with status assigned or
completed. -/
def actual_count (s : Store) (executor_id : Nat) : Nat :=
  s.requests.countP (fun r =>
    r.assigned_to == some executor_id &&
    (decide (r.status = Status.assigned) || decide (r.status = Status.completed)))

/-- `select(Executor).where(Executor.is_active == True)` in row order. -/
def activeExecutors (s : Store) : List Executor :=
  s.executors.filter (fun e => e.is_active)

/-- Insertion into a list sorted by descending `total_assigned`. -/
def insertByDesc (e : Executor) : List Executor → List Executor
  | [] => [e]
  | x :: xs =>
      if e.total_assigned ≤ x.total_assigned then x :: insertByDesc e xs
      else e :: x :: xs

/-- Sort by descending `total_assigned` (insertion sort). -/
def sortByDesc : List Executor → List Executor
  | [] => []
  | x :: xs => insertByDesc x (sortByDesc xs)

/-- The executor listing of the stats query, `order_by
(Executor.total_assigned.desc())` (src/distribution.py, lines 215-220);
the SQL leaves the order among equal keys arbitrary, and the reported
metric is invariant under it. -/
def statsExecutorOrder (s : Store) : List Executor :=
  sortByDesc (activeExecutors s)

/-- The `working_executors` loads (src/distribution.py, lines 240-243):
actual counts of the given executors, restricted to positive ones. -/
def workingLoads (s : Store) (l : List Executor) : List Nat :=
  (l.map (fun e => actual_count s e.id)).filter (fun n => decide (0 < n))

/-- `max(abs(load - avg_load) for load in loads)` — Python's `max` over a
nonempty sequence of nonnegative deviations, as a fold. -/
def maxDeviation (loads : List Nat) (avg : Rat) : Rat :=
  (List.map (fun load : Nat => |(load : Rat) - avg|) loads).foldr max 0

/-- The inner computation of `error_percent` over the working loads
(src/distribution.py, lines 242-253): fewer than two working executors or
a non-positive mean yields 0, otherwise the maximal deviation over the
mean, as a percentage. -/
def errorOfLoads (working : List Nat) : Rat :=
  if 2 ≤ working.length then
    let avg : Rat := (working.sum : Rat) / (working.length : Rat)
    if 0 < avg then maxDeviation working avg / avg * 100 else 0
  else 0

/-- The unrounded `error_percent` of `get_distribution_stats`
(src/distribution.py, lines 239-255), including the source's outer guard
that some active executor exists and at least one request has status
assigned. -/
def raw_error_percent (s : Store) : Rat :=
  if !(statsExecutorOrder s).isEmpty &&
      decide (0 < countStatus s Status.assigned) then
    errorOfLoads (workingLoads s (statsExecutorOrder s))
  else 0

/-- Round-half-to-even on exact rationals (Python `round`'s tie rule). -/
def roundHalfEven (q : Rat) : Int :=
  let f : Int := ⌊q⌋
  let r : Rat := q - (f : Rat)
  if r < mkRat 1 2 then f
  else if mkRat 1 2 < r then f + 1
  else if f % 2 = 0 then f else f + 1

/-- Python `round(x, 2)` modelled on exact rationals. -/
def round2 (q : Rat) : Rat :=
  (roundHalfEven (q * 100) : Rat) / 100

/-- The `distribution_error_percent` field returned by
`get_distribution_stats` (src/distribution.py, line 264). -/
def distribution_error_percent (s : Store) : Rat :=
  round2 (raw_error_percent s)

/-- The imbalance metric exactly as the spec words it (spec §4.6): restrict
to active workers with positive actual count; fewer than two such workers
or a zero mean yields 0; otherwise max absolute deviation over the mean,
times 100, rounded to 2 decimal places.  Stated from the spec's words for
comparison with `distribution_error_percent`. -/
def specErrorOfLoads (working : List Nat) : Rat :=
  if working.length < 2 then 0
  else
    let avg : Rat := (working.sum : Rat) / (working.length : Rat)
    if avg = 0 then 0
    else round2 (maxDeviation working avg / avg * 100)

/-- The spec's imbalance metric over the active workers' positive live
counts. -/
def spec_imbalance (s : Store) : Rat :=
  specErrorOfLoads (workingLoads s (activeExecutors s))

/-- The external intake path (`create_request`, src/main.py, lines
166-180): a new row with status pending and no assignee. -/
def create_request (s : Store) (request_id : Nat)
    (ps : Option (List (String × String))) : Store :=
  { s with requests := s.requests ++
      [{ id := request_id, parameters := ps, status := Status.pending,
         assigned_to := none, assigned_at := none }] }

/-- The external worker intake (`create_executor`, src/main.py, lines
256-285): a new active executor with a zero counter. -/
def create_executor (s : Store) (executor_id : Nat) (name : String)
    (ps : List (String × String)) : Store :=
  { s with executors := s.executors ++
      [{ id := executor_id, name := name, parameters := ps,
         total_assigned := 0, is_active := true }] }

/-- The external completion call (`complete_request`, src/main.py, lines
202-219): look the request up by id; absent → HTTP 404 and no mutation;
present → set its status to completed (the source performs no check of the
current status). -/
def complete_request (s : Store) (request_id : Nat) : Store :=
  match find_request s request_id with
  | none => s
  | some _ =>
      { s with requests := s.requests.map (fun r =>
          if r.id == request_id then { r with status := Status.completed } else r) }

/-- The counters of the active executors, in row order. -/
def activeLoads (s : Store) : List Nat :=
  (activeExecutors s).map (fun e => e.total_assigned)

/-- All active executors' counters lie within one unit of each other. -/
def BalancedWithinOne (s : Store) : Prop :=
  ∀ a ∈ activeLoads s, ∀ b ∈ activeLoads s, a ≤ b + 1

/-- The invariant of spec §3: a request's `assigned_to` is set exactly when
its status is assigned or completed. -/
def AssignedIffBound (s : Store) : Prop :=
  ∀ r ∈ s.requests,
    (r.assigned_to ≠ none ↔ (r.status = Status.assigned ∨ r.status = Status.completed))

/-- Stores reachable from an empty store under the program's operations:
external item intake, external worker intake, the engine's pull and batch
assignment paths, and the external completion call exactly as src/main.py
implements it (no status check). -/
inductive Reachable : Store → Prop where
  | init : Reachable { requests := [], executors := [] }
  | createReq : ∀ s request_id ps, Reachable s →
      Reachable (create_request s request_id ps)
  | createExec : ∀ s executor_id name ps, Reachable s →
      Reachable (create_executor s executor_id name ps)
  | pull : ∀ s executor_id now, Reachable s →
      Reachable (get_next_request s executor_id now).2
  | batch : ∀ s ids now, Reachable s →
      Reachable (auto_distribute_batch s ids now).1
  | complete : ∀ s request_id, Reachable s →
      Reachable (complete_request s request_id)

/-- Reachability as in `Reachable`, except that the completion call is only
taken on requests whose current status is assigned (the assigned→completed
transition the spec describes). -/
inductive ReachableGuarded : Store → Prop where
  | init : ReachableGuarded { requests := [], executors := [] }
  | createReq : ∀ s request_id ps, ReachableGuarded s →
      ReachableGuarded (create_request s request_id ps)
  | createExec : ∀ s executor_id name ps, ReachableGuarded s →
      ReachableGuarded (create_executor s executor_id name ps)
  | pull : ∀ s executor_id now, ReachableGuarded s →
      ReachableGuarded (get_next_request s executor_id now).2
  | batch : ∀ s ids now, ReachableGuarded s →
      ReachableGuarded (auto_distribute_batch s ids now).1
  | complete : ∀ s request_id, ReachableGuarded s →
      (∀ r ∈ s.requests, r.id = request_id → r.status = Status.assigned) →
      ReachableGuarded (complete_request s request_id)

/-- Two active executors with unequal counters (0 and 4) and two pending
unconstrained requests: the batch input refuting claim C7 as stated. -/
def unbalancedStore : Store :=
  { requests :=
      [⟨1, none, Status.pending, none, none⟩,
       ⟨2, none, Status.pending, none, none⟩],
    executors :=
      [⟨1, "alpha", [], 0, true⟩,
       ⟨2, "beta", [], 4, true⟩] }

/-- Two active executors with equal counters and two pending requests. -/
def evenStore : Store :=
  { requests :=
      [⟨1, none, Status.pending, none, none⟩,
       ⟨2, none, Status.pending, none, none⟩],
    executors :=
      [⟨1, "alpha", [], 0, true⟩,
       ⟨2, "beta", [], 0, true⟩] }

/-- A store in which every bound request is already completed (so none has
status assigned), with live counts 1 and 3 on the two active executors. -/
def allCompletedStore : Store :=
  { requests :=
      [⟨1, none, Status.completed, some 1, some 0⟩,
       ⟨2, none, Status.completed, some 2, some 0⟩,
       ⟨3, none, Status.completed, some 2, some 0⟩,
       ⟨4, none, Status.completed, some 2, some 0⟩],
    executors :=
      [⟨1, "alpha", [], 1, true⟩,
       ⟨2, "beta", [], 3, true⟩] }

/-- One executor declaring a capability, one qualifying pending request and
one non-qualifying pending request. -/
def matchingStore : Store :=
  { requests :=
      [⟨10, some [("city", "Paris")], Status.pending, none, none⟩,
       ⟨11, some [("city", "Moscow")], Status.pending, none, none⟩],
    executors := [⟨1, "gamma", [("city", "Moscow")], 0, true⟩] }

/-- One active executor without capabilities and one pending request. -/
def batchStore : Store :=
  { requests := [⟨10, none, Status.pending, none, none⟩],
    executors := [⟨1, "delta", [], 0, true⟩] }

/-- A store whose only executor carrying id 1 is inactive. -/
def inactiveStore : Store :=
  { requests := [⟨5, none, Status.pending, none, none⟩],
    executors := [⟨1, "omega", [], 0, false⟩] }

/-- C4: the parameter matcher satisfies the five test equalities of the
spec: numeric cross-type match, integer inequality, case-insensitive text,
case-insensitive image name, and empty value rejection. -/
theorem C4_matcher_test_vector :
    match_parameter_values "5" "5.0" = true ∧
    match_parameter_values "5" "6" = false ∧
    match_parameter_values "Text" "text" = true ∧
    match_parameter_values "photo.JPG" "photo.jpg" = true ∧
    match_parameter_values "" "5" = false := by
  refine ⟨?_, ?_, ?_, ?_, ?_⟩ <;> with_unfolding_all decide

/-- C9: the classifier is a total deterministic function into the seven
type tags, and satisfies the spec's five test equalities. -/
theorem C9_classifier_total_and_test_vector :
    (∀ v : String, detect_data_type v ∈
      [DataType.date, DataType.integer, DataType.float, DataType.text,
       DataType.string, DataType.raster, DataType.unknown]) ∧
    detect_data_type "2024-01-15" = DataType.date ∧
    detect_data_type "42" = DataType.integer ∧
    detect_data_type "3.14" = DataType.float ∧
    detect_data_type "hello world" = DataType.text ∧
    detect_data_type "abc123" = DataType.string := by
  refine ⟨?_, by decide, by decide, by decide, by decide, by decide⟩
  intro v
  cases detect_data_type v <;> simp

/-- C10: the matcher is symmetric in its two arguments even though they are
designated as the executor's value and the request's value. -/
theorem C10_matcher_symmetric (a b : String) :
    match_parameter_values a b = match_parameter_values b a := by
  by_cases ha : a.data.isEmpty
  · simp [match_parameter_values, ha]
  by_cases hb : b.data.isEmpty
  · simp [match_parameter_values, ha, hb]
  simp only [match_parameter_values, ha, hb, Bool.or_false, Bool.false_or,
    Bool.or_self, if_false]
  cases h1 : detect_data_type a <;> cases h2 : detect_data_type b <;> simp <;>
    first
      | exact eq_comm
      | (constructor <;> intro h <;> rwa [abs_sub_comm] at h)
      | (cases pyFloatOpt a <;> cases pyFloatOpt b <;> simp [abs_sub_comm])

/-- C8: for a worker id that does not correspond to an active worker (every
executor carrying the id is inactive, which covers an unknown id), the pull
returns no item and the store — every request's status, assignee and
timestamp and every executor's counter — is left unchanged. -/
theorem C8_missing_or_inactive_worker (s : Store) (executor_id now : Nat)
    (h : ∀ e ∈ s.executors, e.id = executor_id → e.is_active = false) :
    get_next_request s executor_id now = (none, s) := by
  have hfind : find_executor s executor_id = none := by
    rw [find_executor, List.find?_eq_none]
    intro e he
    simp only [Bool.and_eq_true, beq_iff_eq, not_and]
    intro hid hact
    rw [h e he hid] at hact
    cases hact
  rw [get_next_request, hfind]

/-- Witness for C8 at a concrete store holding one inactive executor with
the queried id and a pending request. -/
theorem C8_missing_or_inactive_worker_witness :
    get_next_request inactiveStore 1 0 = (none, inactiveStore) :=
  C8_missing_or_inactive_worker inactiveStore 1 0 (by decide)

/-- C1: whenever the looked-up executor declares at least one capability
parameter and some pending request fully qualifies under `requestMatches`,
the pull returns a request that itself qualifies — never one whose required
capability parameters fail the matcher. -/
theorem C1_pull_returns_qualifying_request (s : Store) (executor_id now : Nat)
    (e : Executor)
    (hfind : find_executor s executor_id = some e)
    (hparams : e.parameters ≠ [])
    (hex : ∃ r ∈ pendingRequests s, requestMatches e.parameters r = true) :
    ∃ r, (get_next_request s executor_id now).1 = some r ∧
      requestMatches e.parameters r = true := by
  obtain ⟨r0, hr0mem, hr0match⟩ := hex
  have hmem : r0 ∈ (pendingRequests s).filter (requestMatches e.parameters) :=
    List.mem_filter.mpr ⟨hr0mem, hr0match⟩
  cases hl : (pendingRequests s).filter (requestMatches e.parameters) with
  | nil => rw [hl] at hmem; cases hmem
  | cons m t =>
      have hm : requestMatches e.parameters m = true := by
        have : m ∈ (pendingRequests s).filter (requestMatches e.parameters) := by
          rw [hl]; exact List.mem_cons_self m t
        exact (List.mem_filter.mp this).2
      have hsel : selectRequest s e = some m := by
        rw [selectRequest]
        have hne : e.parameters.isEmpty = false := by
          cases hp : e.parameters with
          | nil => exact absurd hp hparams
          | cons a l => rfl
        simp only [hne, Bool.not_false, if_true, hl, List.head?]
      refine ⟨assignRequest m executor_id now, ?_, ?_⟩
      · rw [get_next_request, hfind]
        simp only [hsel]
      · exact hm

/-- Witness for C1 at a concrete store: the executor declares
`city=Moscow`; of the two pending requests only the second qualifies, and
the pull returns a qualifying request. -/
theorem C1_pull_returns_qualifying_request_witness :
    ∃ r, (get_next_request matchingStore 1 0).1 = some r ∧
      requestMatches [("city", "Moscow")] r = true :=
  C1_pull_returns_qualifying_request matchingStore 1 0
    ⟨1, "gamma", [("city", "Moscow")], 0, true⟩
    (by with_unfolding_all decide)
    (by decide)
    ⟨⟨11, some [("city", "Moscow")], Status.pending, none, none⟩,
      by with_unfolding_all decide, by with_unfolding_all decide⟩

lemma pickMinExecutor_eq_none (l : List Executor)
    (h : pickMinExecutor l = none) : l = [] := by
  cases l with
  | nil => rfl
  | cons x xs =>
      cases hp : pickMinExecutor xs with
      | none => simp [pickMinExecutor, hp] at h
      | some b =>
          simp only [pickMinExecutor, hp] at h
          by_cases hlt : b.total_assigned < x.total_assigned <;> simp [hlt] at h

lemma pickMinExecutor_spec :
    ∀ (l : List Executor) (e : Executor), pickMinExecutor l = some e →
      e ∈ l ∧ ∀ w ∈ l, e.total_assigned ≤ w.total_assigned := by
  intro l
  induction l with
  | nil => intro e h; cases h
  | cons x xs ih =>
      intro e h
      cases hp : pickMinExecutor xs with
      | none =>
          simp only [pickMinExecutor, hp, Option.some.injEq] at h
          subst h
          have hnil := pickMinExecutor_eq_none xs hp
          subst hnil
          refine ⟨List.mem_cons_self x [], ?_⟩
          intro w hw
          cases hw with
          | head => exact le_refl _
          | tail _ hmem => cases hmem
      | some b =>
          simp only [pickMinExecutor, hp] at h
          obtain ⟨hbmem, hbmin⟩ := ih b hp
          by_cases hlt : b.total_assigned < x.total_assigned
          · rw [if_pos hlt, Option.some.injEq] at h
            subst h
            refine ⟨List.mem_cons_of_mem x hbmem, ?_⟩
            intro w hw
            cases hw with
            | head => exact le_of_lt hlt
            | tail _ hmem => exact hbmin w hmem
          · rw [if_neg hlt, Option.some.injEq] at h
            subst h
            refine ⟨List.mem_cons_self x xs, ?_⟩
            intro w hw
            cases hw with
            | head => exact le_refl _
            | tail _ hmem => exact le_trans (le_of_not_lt hlt) (hbmin w hmem)

lemma get_optimal_executor_spec (s : Store) (e : Executor)
    (h : get_optimal_executor s = some e) :
    e ∈ s.executors ∧ e.is_active = true ∧
      ∀ w ∈ s.executors, w.is_active = true →
        e.total_assigned ≤ w.total_assigned := by
  obtain ⟨hmem, hmin⟩ := pickMinExecutor_spec _ e h
  have hm := List.mem_filter.mp hmem
  exact ⟨hm.1, hm.2, fun w hw ha =>
    hmin w (List.mem_filter.mpr ⟨hw, ha⟩)⟩

lemma map_update_id_eq_self (l : List Request) (rid : Nat)
    (f : Request → Request) (h : ∀ q ∈ l, q.id ≠ rid) :
    l.map (fun q => if q.id == rid then f q else q) = l := by
  induction l with
  | nil => rfl
  | cons x xs ih =>
      have hx : (x.id == rid) = false :=
        beq_eq_false_iff_ne.mpr (h x (List.mem_cons_self x xs))
      simp only [List.map_cons, hx, Bool.false_eq_true, if_false]
      rw [ih (fun q hq => h q (List.mem_cons_of_mem x hq))]

lemma commitAssignment_request_ids (s : Store) (r : Request) (i n : Nat) :
    (commitAssignment s r i n).requests.map Request.id =
      s.requests.map Request.id := by
  rw [commitAssignment, List.map_map]
  apply List.map_congr_left
  intro q hq
  by_cases h : q.id = r.id <;> simp [h, assignRequest]

lemma countP_assigned_commit (l : List Request) (r : Request) (i n : Nat)
    (hnodup : (l.map Request.id).Nodup) (hmem : r ∈ l)
    (hpend : r.status = Status.pending) :
    (l.map (fun q => if q.id == r.id then assignRequest q i n else q)).countP
        (fun q => decide (q.status = Status.assigned)) =
      l.countP (fun q => decide (q.status = Status.assigned)) + 1 := by
  induction l with
  | nil => cases hmem
  | cons x xs ih =>
      rw [List.map_cons] at hnodup
      have hnd := List.nodup_cons.mp hnodup
      cases List.mem_cons.mp hmem with
      | inl hrx =>
          subst hrx
          have hx : (r.id == r.id) = true := beq_self_eq_true r.id
          have htail : xs.map (fun q => if q.id == r.id then assignRequest q i n else q) = xs := by
            apply map_update_id_eq_self
            intro q hq hqid
            exact hnd.1 (hqid ▸ List.mem_map_of_mem Request.id hq)
          simp only [List.map_cons, hx, if_true, htail, List.countP_cons]
          rw [hpend]
          simp [assignRequest]
      | inr hrxs =>
          have hx : (x.id == r.id) = false := by
            apply beq_eq_false_iff_ne.mpr
            intro hxid
            exact hnd.1 (hxid ▸ List.mem_map_of_mem Request.id hrxs)
          simp only [List.map_cons, hx, Bool.false_eq_true, if_false,
            List.countP_cons]
          rw [ih hnd.2 hrxs]
          omega

lemma auto_distribute_batch_count (ids : List Nat) :
    ∀ s : Store, ∀ now : Nat, (s.requests.map Request.id).Nodup →
      countStatus (auto_distribute_batch s ids now).1 Status.assigned =
        countStatus s Status.assigned + (auto_distribute_batch s ids now).2 := by
  induction ids with
  | nil => intro s now _; rfl
  | cons request_id rest ih =>
      intro s now hnodup
      rw [auto_distribute_batch]
      cases hfr : find_request s request_id with
      | none => simpa using ih s now hnodup
      | some r =>
          by_cases hst : r.status = Status.pending
          · simp only [hst, ne_eq, not_true_eq_false, if_false]
            cases hopt : get_optimal_executor s with
            | none => simp
            | some e =>
                simp only []
                have hmem : r ∈ s.requests := List.mem_of_find?_eq_some hfr
                have hnodup2 : ((commitAssignment s r e.id now).requests.map Request.id).Nodup := by
                  rw [commitAssignment_request_ids]; exact hnodup
                have hcount := countP_assigned_commit s.requests r e.id now hnodup hmem hst
                have hrec := ih (commitAssignment s r e.id now) now hnodup2
                rw [hrec]
                have : countStatus (commitAssignment s r e.id now) Status.assigned =
                    countStatus s Status.assigned + 1 := hcount
                rw [this]
                omega
          · simp only [ne_eq, hst, not_false_eq_true, if_true]
            exact ih s now hnodup

/-- C3: the batch distributor processes ids in order — an id whose request
is missing or non-pending is skipped; a pending id with no active executor
stops processing early with the store untouched and count 0 for the rest;
a pending id with least-loaded active executor `e` commits the assignment
to `e` (status assigned, worker bound, time stamped, counter incremented,
all inside `commitAssignment`) and adds one to the count of the rest; and
the returned count equals the number of requests newly moved to assigned. -/
theorem C3_auto_distribute_batch_behaviour (s : Store)
    (request_id : Nat) (rest ids : List Nat) (now : Nat) :
    (find_request s request_id = none →
      auto_distribute_batch s (request_id :: rest) now =
        auto_distribute_batch s rest now) ∧
    (∀ r, find_request s request_id = some r → r.status ≠ Status.pending →
      auto_distribute_batch s (request_id :: rest) now =
        auto_distribute_batch s rest now) ∧
    (∀ r, find_request s request_id = some r → r.status = Status.pending →
      get_optimal_executor s = none →
      auto_distribute_batch s (request_id :: rest) now = (s, 0)) ∧
    (∀ r e, find_request s request_id = some r → r.status = Status.pending →
      get_optimal_executor s = some e →
      e.is_active = true ∧
      (∀ w ∈ s.executors, w.is_active = true →
        e.total_assigned ≤ w.total_assigned) ∧
      auto_distribute_batch s (request_id :: rest) now =
        ((auto_distribute_batch (commitAssignment s r e.id now) rest now).1,
         (auto_distribute_batch (commitAssignment s r e.id now) rest now).2 + 1)) ∧
    ((s.requests.map Request.id).Nodup →
      countStatus (auto_distribute_batch s ids now).1 Status.assigned =
        countStatus s Status.assigned + (auto_distribute_batch s ids now).2) := by
  refine ⟨?_, ?_, ?_, ?_, ?_⟩
  · intro h
    rw [auto_distribute_batch, h]
  · intro r hfr hst
    rw [auto_distribute_batch, hfr]
    simp [hst]
  · intro r hfr hst hopt
    rw [auto_distribute_batch, hfr]
    simp [hst, hopt]
  · intro r e hfr hst hopt
    obtain ⟨_, hact, hmin⟩ := get_optimal_executor_spec s e hopt
    refine ⟨hact, hmin, ?_⟩
    rw [auto_distribute_batch, hfr]
    simp [hst, hopt]
  · exact auto_distribute_batch_count ids s now

/-- Witness for C3 at a concrete store: one pending request, one active
executor, the batch over the single id assigns exactly one request. -/
theorem C3_auto_distribute_batch_behaviour_witness :
    countStatus (auto_distribute_batch batchStore [10] 0).1 Status.assigned =
      countStatus batchStore Status.assigned +
        (auto_distribute_batch batchStore [10] 0).2 :=
  (C3_auto_distribute_batch_behaviour batchStore 10 [] [10] 0).2.2.2.2 (by decide)

lemma mem_activeLoads (s : Store) (w : Executor)
    (hw : w ∈ s.executors) (ha : w.is_active = true) :
    w.total_assigned ∈ activeLoads s :=
  List.mem_map_of_mem _ (List.mem_filter.mpr ⟨hw, ha⟩)

lemma commitAssignment_executor_ids (s : Store) (r : Request) (i n : Nat) :
    (commitAssignment s r i n).executors.map Executor.id =
      s.executors.map Executor.id := by
  rw [commitAssignment, List.map_map]
  apply List.map_congr_left
  intro w hw
  by_cases h : w.id = i <;> simp [h, bumpExecutor]

lemma activeLoads_commit_mem (s : Store) (r : Request) (i now a : Nat)
    (ha : a ∈ activeLoads (commitAssignment s r i now)) :
    ∃ w ∈ s.executors, w.is_active = true ∧
      a = if w.id = i then w.total_assigned + 1 else w.total_assigned := by
  obtain ⟨u, hu, hua⟩ := List.mem_map.mp ha
  obtain ⟨humem, huact⟩ := List.mem_filter.mp hu
  obtain ⟨w, hw, hwu⟩ := List.mem_map.mp humem
  subst hwu
  by_cases h : w.id = i
  · exact ⟨w, hw, by simpa [h, bumpExecutor] using huact,
      by rw [if_pos h, ← hua]; simp [h, bumpExecutor]⟩
  · exact ⟨w, hw, by simpa [h] using huact,
      by rw [if_neg h, ← hua]; simp [h]⟩

lemma commitAssignment_balanced (s : Store) (r : Request) (e : Executor)
    (now : Nat)
    (hmem : e ∈ s.executors) (hact : e.is_active = true)
    (hids : (s.executors.map Executor.id).Nodup)
    (hmin : ∀ w ∈ s.executors, w.is_active = true →
      e.total_assigned ≤ w.total_assigned)
    (hbal : BalancedWithinOne s) :
    BalancedWithinOne (commitAssignment s r e.id now) := by
  intro a ha b hb
  obtain ⟨w1, hw1, hw1a, ha2⟩ := activeLoads_commit_mem s r e.id now a ha
  obtain ⟨w2, hw2, hw2a, hb2⟩ := activeLoads_commit_mem s r e.id now b hb
  have hinj : ∀ w ∈ s.executors, w.id = e.id → w = e := fun w hw hid =>
    List.inj_on_of_nodup_map hids hw hmem hid
  have h12 := hbal w1.total_assigned (mem_activeLoads s w1 hw1 hw1a)
    w2.total_assigned (mem_activeLoads s w2 hw2 hw2a)
  have h1e := hbal w1.total_assigned (mem_activeLoads s w1 hw1 hw1a)
    e.total_assigned (mem_activeLoads s e hmem hact)
  have hm2 := hmin w2 hw2 hw2a
  by_cases k1 : w1.id = e.id
  · rw [hinj w1 hw1 k1] at ha2
    rw [if_pos rfl] at ha2
    by_cases k2 : w2.id = e.id
    · rw [hinj w2 hw2 k2] at hb2
      rw [if_pos rfl] at hb2
      omega
    · rw [if_neg k2] at hb2
      omega
  · rw [if_neg k1] at ha2
    by_cases k2 : w2.id = e.id
    · rw [hinj w2 hw2 k2] at hb2
      rw [if_pos rfl] at hb2
      omega
    · rw [if_neg k2] at hb2
      omega

lemma auto_distribute_batch_balanced (ids : List Nat) :
    ∀ s : Store, ∀ now : Nat, (s.executors.map Executor.id).Nodup →
      BalancedWithinOne s →
      BalancedWithinOne (auto_distribute_batch s ids now).1 := by
  induction ids with
  | nil => intro s now _ hbal; exact hbal
  | cons request_id rest ih =>
      intro s now hnd hbal
      rw [auto_distribute_batch]
      cases hfr : find_request s request_id with
      | none => exact ih s now hnd hbal
      | some r =>
          by_cases hst : r.status = Status.pending
          · simp only [hst, ne_eq, not_true_eq_false, if_false]
            cases hopt : get_optimal_executor s with
            | none => exact hbal
            | some e =>
                simp only []
                obtain ⟨hmem, hact, hmin⟩ := get_optimal_executor_spec s e hopt
                apply ih
                · rw [commitAssignment_executor_ids]
                  exact hnd
                · exact commitAssignment_balanced s r e now hmem hact hnd hmin hbal
          · simp only [ne_eq, hst, not_false_eq_true, if_true]
            exact ih s now hnd hbal

/-- C7 is false as stated: two active workers whose counters start at 0 and
4, two distinct pending unconstrained ids (so K = W = 2), yet after the
batch the counters are 2 and 4 — a gap of 2. -/
theorem C7_counterexample_unequal_start :
    (unbalancedStore.requests.map Request.id).Nodup ∧
    (∀ r ∈ unbalancedStore.requests,
      r.status = Status.pending ∧ r.parameters = none) ∧
    (activeExecutors unbalancedStore).length = 2 ∧
    activeLoads (auto_distribute_batch unbalancedStore [1, 2] 0).1 = [2, 4] ∧
    ¬ BalancedWithinOne (auto_distribute_batch unbalancedStore [1, 2] 0).1 := by
  refine ⟨by decide, by decide, by decide, by decide, ?_⟩
  unfold BalancedWithinOne
  decide

/-- C7 amended: when the active workers additionally start from equal
`total_assigned` counters (in particular fresh workers), the batch keeps
every pair of active counters within one unit of each other, for every id
list — in particular for K ≥ W distinct pending ids. -/
theorem C7_amended_balance_within_one (s : Store) (ids : List Nat) (now : Nat)
    (hids : (s.executors.map Executor.id).Nodup)
    (heq : ∀ a ∈ activeLoads s, ∀ b ∈ activeLoads s, a = b) :
    BalancedWithinOne (auto_distribute_batch s ids now).1 := by
  apply auto_distribute_batch_balanced ids s now hids
  intro a ha b hb
  rw [heq a ha b hb]
  exact Nat.le_succ b

/-- Witness for the amended C7 at a concrete store: two equal fresh workers
and two pending items end balanced. -/
theorem C7_amended_balance_within_one_witness :
    BalancedWithinOne (auto_distribute_batch evenStore [1, 2] 0).1 :=
  C7_amended_balance_within_one evenStore [1, 2] 0 (by decide) (by decide)

lemma insertByDesc_perm (e : Executor) (l : List Executor) :
    (insertByDesc e l).Perm (e :: l) := by
  induction l with
  | nil => exact List.Perm.refl _
  | cons x xs ih =>
      rw [insertByDesc]
      by_cases h : e.total_assigned ≤ x.total_assigned
      · rw [if_pos h]
        exact (List.Perm.cons x ih).trans (List.Perm.swap e x xs)
      · rw [if_neg h]

lemma sortByDesc_perm (l : List Executor) : (sortByDesc l).Perm l := by
  induction l with
  | nil => exact List.Perm.refl _
  | cons x xs ih =>
      rw [sortByDesc]
      exact (insertByDesc_perm x (sortByDesc xs)).trans (List.Perm.cons x ih)

lemma workingLoads_perm (s : Store) (l1 l2 : List Executor)
    (h : l1.Perm l2) : (workingLoads s l1).Perm (workingLoads s l2) :=
  (h.map _).filter _

lemma maxDeviation_perm (l1 l2 : List Nat) (avg : Rat) (h : l1.Perm l2) :
    maxDeviation l1 avg = maxDeviation l2 avg := by
  unfold maxDeviation
  exact @List.Perm.foldr_eq Rat Rat max _ _
    ⟨fun a b c => max_left_comm a b c⟩
    (List.Perm.map (fun load : Nat => |(load : Rat) - avg|) h) 0

lemma round2_zero : round2 0 = 0 := by
  rw [round2]
  norm_num [roundHalfEven, Rat.mkRat_eq_div]

lemma errorOfLoads_perm (l1 l2 : List Nat) (h : l1.Perm l2) :
    errorOfLoads l1 = errorOfLoads l2 := by
  simp only [errorOfLoads]
  rw [h.length_eq, h.sum_eq, maxDeviation_perm l1 l2 _ h]

lemma workingLoads_pos (s : Store) (l : List Executor) :
    ∀ x ∈ workingLoads s l, 0 < x := by
  intro x hx
  have hx2 := (List.mem_filter.mp hx).2
  simpa using hx2

lemma round2_errorOfLoads_eq_spec (w : List Nat) (hpos : ∀ x ∈ w, 0 < x) :
    round2 (errorOfLoads w) = specErrorOfLoads w := by
  simp only [errorOfLoads, specErrorOfLoads]
  by_cases hlen : 2 ≤ w.length
  · have hne : w ≠ [] := by
      intro hcon
      rw [hcon] at hlen
      simp at hlen
    have havg : 0 < (w.sum : Rat) / (w.length : Rat) := by
      apply div_pos
      · exact_mod_cast List.sum_pos w hpos hne
      · exact_mod_cast List.length_pos.mpr hne
    rw [if_pos hlen, if_pos havg,
      if_neg (show ¬ w.length < 2 by omega),
      if_neg (show ¬ (w.sum : Rat) / (w.length : Rat) = 0 from ne_of_gt havg)]
  · rw [if_pos (show w.length < 2 by omega), if_neg hlen, round2_zero]

/-- C2 is false as stated: in `allCompletedStore` every bound request is
completed and none is assigned, so `get_distribution_stats` reports 0,
while the spec's formula over the live counts 1 and 3 yields 50. -/
theorem C2_counterexample_no_assigned :
    countStatus allCompletedStore Status.assigned = 0 ∧
    distribution_error_percent allCompletedStore = 0 ∧
    spec_imbalance allCompletedStore = 50 := by
  refine ⟨by decide, ?_, ?_⟩ <;> with_unfolding_all decide

/-- C2 amended: the reported `distribution_error_percent` equals the spec's
imbalance formula whenever at least one request has status assigned, and is
0 otherwise (the source guards the whole computation by `assigned_requests
> 0`). -/
theorem C2_amended_error_percent (s : Store) :
    distribution_error_percent s =
      (if 0 < countStatus s Status.assigned then spec_imbalance s else 0) := by
  have hperm : (workingLoads s (statsExecutorOrder s)).Perm
      (workingLoads s (activeExecutors s)) :=
    workingLoads_perm s _ _ (sortByDesc_perm _)
  rw [distribution_error_percent, raw_error_percent, spec_imbalance]
  by_cases hassigned : 0 < countStatus s Status.assigned
  · have hdec : decide (0 < countStatus s Status.assigned) = true := by
      simpa using hassigned
    rw [if_pos hassigned, hdec]
    by_cases hempty : (statsExecutorOrder s).isEmpty
    · rw [hempty]
      simp only [Bool.not_true, Bool.false_and, Bool.false_eq_true,
        if_false]
      have hnil : statsExecutorOrder s = [] := by
        cases h : statsExecutorOrder s with
        | nil => rfl
        | cons a t => rw [h] at hempty; cases hempty
      have hw1 : workingLoads s (statsExecutorOrder s) = [] := by
        rw [hnil]; rfl
      have hw2 : workingLoads s (activeExecutors s) = [] := by
        rw [hw1] at hperm
        exact (List.Perm.eq_nil hperm.symm)
      rw [hw2, round2_zero]
      rfl
    · have hne : (statsExecutorOrder s).isEmpty = false := by
        cases h : (statsExecutorOrder s).isEmpty with
        | false => rfl
        | true => exact absurd h hempty
      rw [hne]
      simp only [Bool.not_false, Bool.true_and, if_true]
      rw [errorOfLoads_perm _ _ hperm]
      exact round2_errorOfLoads_eq_spec _ (workingLoads_pos s _)
  · have hdec : decide (0 < countStatus s Status.assigned) = false := by
      simpa using hassigned
    rw [if_neg hassigned, hdec]
    simp only [Bool.and_false, Bool.false_eq_true, if_false]
    exact round2_zero

lemma commitAssignment_bound (s : Store) (r : Request) (i n : Nat)
    (hinv : AssignedIffBound s) :
    AssignedIffBound (commitAssignment s r i n) := by
  intro q hq
  obtain ⟨q0, hq0, hq0e⟩ := List.mem_map.mp hq
  subst hq0e
  by_cases h : q0.id = r.id
  · simp [h, assignRequest]
  · simp only [h, beq_iff_eq, if_false]
    exact hinv q0 hq0

lemma get_next_request_bound (s : Store) (i now : Nat)
    (hinv : AssignedIffBound s) :
    AssignedIffBound (get_next_request s i now).2 := by
  rw [get_next_request]
  split
  · exact hinv
  · split
    · exact hinv
    next r heq => exact commitAssignment_bound s r i now hinv

lemma auto_distribute_batch_bound (ids : List Nat) :
    ∀ s : Store, ∀ now : Nat, AssignedIffBound s →
      AssignedIffBound (auto_distribute_batch s ids now).1 := by
  induction ids with
  | nil => intro s now h; exact h
  | cons request_id rest ih =>
      intro s now hinv
      rw [auto_distribute_batch]
      cases hfr : find_request s request_id with
      | none => exact ih s now hinv
      | some r =>
          by_cases hst : r.status = Status.pending
          · simp only [hst, ne_eq, not_true_eq_false, if_false]
            cases hopt : get_optimal_executor s with
            | none => exact hinv
            | some e =>
                simp only []
                exact ih _ now (commitAssignment_bound s r e.id now hinv)
          · simp only [ne_eq, hst, not_false_eq_true, if_true]
            exact ih s now hinv

lemma create_request_bound (s : Store) (request_id : Nat)
    (ps : Option (List (String × String))) (hinv : AssignedIffBound s) :
    AssignedIffBound (create_request s request_id ps) := by
  intro q hq
  rcases List.mem_append.mp hq with h | h
  · exact hinv q h
  · rw [List.mem_singleton.mp h]
    simp

lemma complete_request_bound (s : Store) (request_id : Nat)
    (hg : ∀ r ∈ s.requests, r.id = request_id → r.status = Status.assigned)
    (hinv : AssignedIffBound s) :
    AssignedIffBound (complete_request s request_id) := by
  rw [complete_request]
  cases hfr : find_request s request_id with
  | none => exact hinv
  | some r0 =>
      intro q hq
      obtain ⟨q0, hq0, hq0e⟩ := List.mem_map.mp hq
      subst hq0e
      by_cases h : q0.id = request_id
      · have hbound := (hinv q0 hq0).mpr (Or.inl (hg q0 hq0 h))
        simp [h, hbound]
      · simp only [h, beq_iff_eq, if_false]
        exact hinv q0 hq0

/-- C5 fails as stated: the external completion call of src/main.py checks
only existence, so completing a never-assigned pending request reaches a
store whose single request is completed with `assigned_to` unset. -/
theorem C5_counterexample_complete_pending :
    Reachable (complete_request
      (create_request { requests := [], executors := [] } 1 none) 1) ∧
    ¬ AssignedIffBound (complete_request
      (create_request { requests := [], executors := [] } 1 none) 1) := by
  constructor
  · exact Reachable.complete _ 1 (Reachable.createReq _ 1 none Reachable.init)
  · unfold AssignedIffBound
    decide

/-- C5 amended: the invariant `assigned_to` set ⟺ status assigned or
completed holds in every state reachable under item creation, worker
creation, the pull and batch assignment paths, and the completion call
restricted to requests currently in status assigned. -/
theorem C5_amended_invariant_guarded (s : Store) (h : ReachableGuarded s) :
    AssignedIffBound s := by
  induction h with
  | init => intro q hq; cases hq
  | createReq s1 request_id ps _ ih =>
      exact create_request_bound s1 request_id ps ih
  | createExec s1 executor_id name ps _ ih => exact ih
  | pull s1 executor_id now _ ih =>
      exact get_next_request_bound s1 executor_id now ih
  | batch s1 ids now _ ih =>
      exact auto_distribute_batch_bound ids s1 now ih
  | complete s1 request_id _ hg ih =>
      exact complete_request_bound s1 request_id hg ih

/-- Witness for the amended C5: the store holding one freshly created
pending request is guardedly reachable and satisfies the invariant. -/
theorem C5_amended_invariant_guarded_witness :
    AssignedIffBound (create_request { requests := [], executors := [] } 1 none) :=
  C5_amended_invariant_guarded _
    (ReachableGuarded.createReq _ 1 none ReachableGuarded.init)

end ExecutorBalancer
